import Mathlib

/-!
Verification of the agentChef dataset-expansion core against its
natural-language specification.  The definitions below are a shallow
embedding of `src/augmentationTools/dataset-expander.py` and
`src/agentChef/conversation_generator.py`: Python strings become
`String`/`List Char`, Python dicts with string keys become insertion-ordered
association lists, a fallible backend call becomes a function returning
`Option String` (`none` models a raised exception), and a Python statement
that can raise makes the embedded function return `Option`.
-/

namespace AgentChef

/-! ## Python primitives -/

/-- Characters stripped by Python `str.strip()` and matched by the regex
class `\s` (ASCII range; the repository only manipulates ASCII markers). -/
def pyIsSpace (c : Char) : Bool :=
  c = ' ' || c = '\t' || c = '\n' || c = '\r' || c = Char.ofNat 11 || c = Char.ofNat 12

/-- Python `str.strip()` on a character list. -/
def pyStripL (l : List Char) : List Char :=
  ((l.dropWhile pyIsSpace).reverse.dropWhile pyIsSpace).reverse

/-- Python `str.strip()`. -/
def pyStrip (s : String) : String := ⟨pyStripL s.data⟩

/-- Python `str.lower()` on a character list (ASCII case mapping; the
repository compares only ASCII keywords). -/
def pyLowerL (l : List Char) : List Char := l.map Char.toLower

/-- Python `str.startswith(pat)`. -/
def pyStartsWith : List Char → List Char → Bool
  | _, [] => true
  | [], _ :: _ => false
  | c :: cs, p :: ps => c = p && pyStartsWith cs ps

/-- Python `str.endswith(c)` for a single character. -/
def pyEndsWithChar (l : List Char) (c : Char) : Bool := l.getLast? = some c

/-- The double-quote character. -/
def quotChar : Char := Char.ofNat 34

/-- The single-quote character. -/
def aposChar : Char := Char.ofNat 39

/-- The backslash character. -/
def backslashChar : Char := Char.ofNat 92

/-- The single-quote character as a one-character string. -/
def aposStr : String := ⟨[aposChar]⟩

/-- Python dict assignment `d[k] = v` for a string-keyed dict modelled as an
insertion-ordered association list: an existing key keeps its position and
gets the new value, a new key is appended. -/
def pyDictSet : List (String × String) → String → String → List (String × String)
  | [], k, v => [(k, v)]
  | kv :: rest, k, v => if kv.1 = k then (k, v) :: rest else kv :: pyDictSet rest k v

/-- Python dict lookup `d.get(k)` returning `None` when absent. -/
def pyDictGet (d : List (String × String)) (k : String) : Option String :=
  (d.find? (fun kv => kv.1 = k)).map (fun kv => kv.2)

/-- Python membership test `k in d` on a dict. -/
def pyDictContains (d : List (String × String)) (k : String) : Bool :=
  d.any (fun kv => kv.1 = k)

/-- Python `repr` of a string: quote-delimited, escaping backslashes, the
delimiting quote and common control characters.  Like CPython, a string
containing a single quote but no double quote is rendered with double
quotes.  (Other non-printable characters are kept verbatim; the repository
only feeds this into chat prompts, which no theorem inspects.) -/
def pyReprStr (s : String) : String :=
  let esc (delim : Char) (c : Char) : List Char :=
    if c = backslashChar then [backslashChar, backslashChar]
    else if c = delim then [backslashChar, delim]
    else if c = '\n' then [backslashChar, 'n']
    else if c = '\r' then [backslashChar, 'r']
    else if c = '\t' then [backslashChar, 't']
    else [c]
  let delim := if s.data.contains aposChar && !(s.data.contains quotChar) then quotChar else aposChar
  ⟨delim :: (s.data.flatMap (esc delim) ++ [delim])⟩

/-- Python `repr` of a `str → str` dict (an f-string interpolation of a dict
renders its `repr`). -/
def pyDictRepr (d : List (String × String)) : String :=
  "\x7b" ++ String.intercalate ", " (d.map (fun kv => pyReprStr kv.1 ++ ": " ++ pyReprStr kv.2)) ++ "\x7d"

/-- Python `repr`/f-string rendering of a bool. -/
def pyBoolRepr (b : Bool) : String := if b then "True" else "False"

/-! ## Data model of the expander

A turn is a dict with keys `from` and `value` (docstring of
`expand_conversation_dataset`); we embed it as a two-field structure. -/

structure Turn where
  from_ : String
  value : String
deriving DecidableEq, Repr

/-- A conversation is an ordered list of turns. -/
abbrev Conv := List Turn

/-- A chat message is a (role, content) pair, as in
`\x7b'role': 'system', 'content': system_prompt\x7d`. -/
abbrev ChatMessage := String × String

/-- The Ollama interface: one `chat` call takes the message list and either
returns the completion text (`response['message']['content']`) or raises,
which we model as `none`.  The embedding uses one fixed function per run;
this abstracts the nondeterministic service by quantifying theorems over
all such functions. -/
abbrev Backend := List ChatMessage → Option String

/-! ## DatasetExpander._is_question -/

/-- Interrogative lead words recognised by `_is_question`. -/
def questionStarters : List String :=
  ["what", "when", "where", "who", "why", "how", "can", "could",
   "would", "should", "is", "are", "do", "does", "will", "may"]

/-- Embedding of `DatasetExpander._is_question` (dataset-expander.py,
lines 430-443): strip and lowercase the text, then test for a trailing
question mark or one of the fixed lead words. -/
def is_question (text : String) : Bool :=
  let t := pyLowerL (pyStripL text.data)
  pyEndsWithChar t '?' || questionStarters.any (fun w => pyStartsWith t w.data)

/-! ## DatasetExpander.clean_generated_content

The three `re.sub` phases (lines 217-221) are embedded one by one. -/

/-- Lead-in phrases removed by the anchored regex
`^(Generated content:|Verified content:|Corrected version:)\s*`
with `re.IGNORECASE`, in alternation order. -/
def leadInPhrases : List String :=
  ["generated content:", "verified content:", "corrected version:"]

/-- First cleaning regex: an anchored match removes one lead-in phrase at
the start of the text (case-insensitively) together with the following
run of whitespace. -/
def subLeadIn (l : List Char) : List Char :=
  match leadInPhrases.find? (fun p => pyStartsWith (pyLowerL l) p.data) with
  | some p => (l.drop p.length).dropWhile pyIsSpace
  | none => l

/-- Trailing markers of the second cleaning regex
`\s*(Verification result:.*|Reference Command:.*|Note:.*|Verified Response:.*)$`
with `re.IGNORECASE`, in alternation order. -/
def trailMarkers : List String :=
  ["verification result:", "reference command:", "note:", "verified response:"]

/-- Whether the regex alternative `Marker.*` matches the whole suffix `l`
up to `$`: the suffix must start with a marker (case-insensitively) and,
since `.` does not cross a newline, contain no newline at all. -/
def trailMarkerMatch (l : List Char) : Bool :=
  trailMarkers.any (fun m => pyStartsWith (pyLowerL l) m.data) && l.all (fun c => c ≠ '\n')

/-- Scan for the leftmost position where `\s*(Marker.*)` matches through to
the end of the text.  A marker starts with a non-space character, so after
the greedy `\s*` the marker must sit at the first non-space position; the
returned value is the prefix before the match, or `none` when there is no
match. -/
def trailScan : List Char → Option (List Char)
  | [] => none
  | c :: cs =>
    if trailMarkerMatch ((c :: cs).dropWhile pyIsSpace) then some []
    else match trailScan cs with
      | some pre => some (c :: pre)
      | none => none

/-- Second cleaning regex: removes whitespace plus a trailing marker and
everything after it on the last line.  Without `re.MULTILINE`, `$` matches
at the end of the text or just before one final newline, which is then
kept in the output. -/
def subTrailing (l : List Char) : List Char :=
  let keepNL := l.getLast? = some '\n'
  let core := if keepNL then l.dropLast else l
  match trailScan core with
  | some pre => if keepNL then pre ++ ['\n'] else pre
  | none => l

/-- The character class `[A-Za-z_]` of the placeholder regex. -/
def placeholderWordChar (c : Char) : Bool := c.isAlpha || c = '_'

/-- Length of a match of `___[A-Za-z_]+___` anchored at the head of `l`,
if any.  After the opening `___` the greedy `[A-Za-z_]+` eats the maximal
word-character run, then backtracks just enough to leave the closing
`___`, so a match needs a run of length at least 4 that ends in three
underscores, and it consumes the opening `___` plus the whole run. -/
def placeholderLen (l : List Char) : Option Nat :=
  match l with
  | '_' :: '_' :: '_' :: rest =>
    let run := rest.takeWhile placeholderWordChar
    if 4 ≤ run.length ∧ run.drop (run.length - 3) = ['_', '_', '_'] then
      some (3 + run.length)
    else none
  | _ => none

/-- Worker for the third cleaning regex, structurally recursive on a fuel
bound: every step consumes at least one character, so calling it with the
length of the list as fuel (as `subPlaceholders` does) never exhausts the
fuel. -/
def subPlaceholdersAux : Nat → List Char → List Char
  | 0, _ => []
  | _ + 1, [] => []
  | fuel + 1, c :: cs =>
    match placeholderLen (c :: cs) with
    | some n => subPlaceholdersAux fuel (cs.drop (n - 1))
    | none => c :: subPlaceholdersAux fuel cs

/-- Third cleaning regex: `re.sub` of `___[A-Za-z_]+___` with the empty
string, scanning left to right and continuing after each match. -/
def subPlaceholders (l : List Char) : List Char :=
  subPlaceholdersAux l.length l

/-- Python `text.strip('"\'')`: remove any leading and trailing quote
characters. -/
def stripQuoteEnds (l : List Char) : List Char :=
  let isQuote (c : Char) : Bool := c = quotChar || c = aposChar
  ((l.dropWhile isQuote).reverse.dropWhile isQuote).reverse

/-- Capitalisation step: `if text and text[0].islower(): text = text[0].upper() + text[1:]`
(ASCII case mapping). -/
def capitalizeFirst : List Char → List Char
  | [] => []
  | c :: cs => if c.isLower then c.toUpper :: cs else c :: cs

/-- All phases of `clean_generated_content` before the terminal-punctuation
enforcement: the three regex substitutions, the quote strip, the
whitespace strip and the capitalisation. -/
def cleanCore (l : List Char) : List Char :=
  capitalizeFirst (pyStripL (stripQuoteEnds (subPlaceholders (subTrailing (subLeadIn l)))))

/-- Embedding of `DatasetExpander.clean_generated_content` (lines 205-239).
The statement branch evaluates `text[-1]`, which raises `IndexError` on an
empty string; a raise is modelled as `none`. -/
def clean_generated_content (text : String) (isq : Bool) : Option String :=
  let t := cleanCore text.data
  if isq then
    some ⟨if pyEndsWithChar t '?' then t else t ++ ['?']⟩
  else
    match t.getLast? with
    | none => none
    | some c => some ⟨if c = '.' || c = '!' || c = '?' then t else t ++ ['.']⟩

/-! ## DatasetExpander.verify_paraphrase and paraphrase_text

The prompt texts are transcribed from the triple-quoted literals of the
source, including indentation and trailing spaces; the interpolated
values follow Python f-string rendering. -/

/-- System prompt of `paraphrase_text` (lines 119-121). -/
def paraphraseSystemPrompt : String :=
  "You are a paraphrasing assistant. Your task is to rephrase the given text while \n        maintaining its original meaning and incorporating any provided reference values. \n        Do not add any explanatory text or meta-information."

/-- User prompt of `paraphrase_text` (lines 123-130). -/
def paraphraseUserPrompt (text : String) (reference_values : List (String × String)) (isq : Bool) : String :=
  "Original text: " ++ text ++
  "\n        Reference values: " ++ pyDictRepr reference_values ++
  "\n        Is question: " ++ pyBoolRepr isq ++
  "\n        \n        Please rephrase the text, maintaining its core meaning and incorporating the reference values where appropriate. \n        If it" ++ aposStr ++ "s a question, keep it as a question. If it" ++ aposStr ++ "s a statement, keep it as a statement.\n        Ensure the paraphrased text is coherent and contextually relevant.\n        Provide only the paraphrased text without any additional explanations or formatting."

/-- Message list of the generation call in `paraphrase_text` (lines 133-136). -/
def paraphraseMessages (text : String) (reference_values : List (String × String)) (isq : Bool) : List ChatMessage :=
  [("system", paraphraseSystemPrompt), ("user", paraphraseUserPrompt text reference_values isq)]

/-- System prompt of `verify_paraphrase` (lines 170-172). -/
def verifySystemPrompt : String :=
  "You are a verification assistant. Your task is to ensure that the paraphrased content \n        maintains the original meaning, format (question or statement), and incorporates the reference values correctly.\n        If the paraphrase is accurate, return it as-is. If not, provide a corrected version."

/-- User prompt of `verify_paraphrase` (lines 174-183). -/
def verifyUserPrompt (original paraphrased : String) (reference : List (String × String)) (isq : Bool) : String :=
  "Original: " ++ original ++
  "\n        Paraphrased: " ++ paraphrased ++
  "\n        Reference values: " ++ pyDictRepr reference ++
  "\n        Is question: " ++ pyBoolRepr isq ++
  "\n        \n        Verify that the paraphrased content maintains the original meaning, format (question or statement), \n        and correctly incorporates the reference values. If it does, return the paraphrased content. \n        If not, provide a corrected version that accurately reflects the original meaning, format, \n        and includes the reference values.\n        Do not include any explanatory text or meta-information in your response."

/-- Message list of the verification call (lines 186-189). -/
def verifyMessages (original paraphrased : String) (reference : List (String × String)) (isq : Bool) : List ChatMessage :=
  [("system", verifySystemPrompt), ("user", verifyUserPrompt original paraphrased reference isq)]

/-- Embedding of `DatasetExpander.verify_paraphrase` (lines 157-203): call
the backend; on an exception return the unverified paraphrase; otherwise
strip the completion and enforce the question/statement terminal
punctuation. -/
def verify_paraphrase (chat : Backend) (original paraphrased : String)
    (reference : List (String × String)) (isq : Bool) : String :=
  match chat (verifyMessages original paraphrased reference isq) with
  | none => paraphrased
  | some content =>
    let v := pyStrip content
    if isq && !(pyEndsWithChar v.data '?') then v ++ "?"
    else if !isq && pyEndsWithChar v.data '?' then ⟨v.data.dropLast⟩ ++ "."
    else v

/-- Embedding of `DatasetExpander.paraphrase_text` (lines 98-155).
Empty or whitespace-only input short-circuits.  The `try` block covers the
generation call, the verification and the cleaning, so a backend exception
of the generation call and an `IndexError` of the cleaning step both fall
back to the original text; a verification-call exception is already
absorbed inside `verify_paraphrase`. -/
def paraphrase_text (chat : Backend) (text : String)
    (reference_values : List (String × String)) (isq? : Option Bool) : String :=
  if (pyStripL text.data).isEmpty then text
  else
    let isq := isq?.getD (is_question text)
    match chat (paraphraseMessages text reference_values isq) with
    | none => text
    | some content =>
      let paraphrased := pyStrip content
      let verified := verify_paraphrase chat text paraphrased reference_values isq
      match clean_generated_content verified isq with
      | some cleaned => cleaned
      | none => text

/-! ## DatasetExpander.expand_conversation_dataset -/

/-- Python `static_fields.get(source, False)` on the static-field policy. -/
def lookupStatic (static_fields : List (String × Bool)) (role : String) : Bool :=
  ((static_fields.find? (fun kv => kv.1 = role)).map (fun kv => kv.2)).getD false

/-- Reference-value extraction (lines 68-71): for each turn whose role is
in `reference_fields`, record role → text; a later turn of the same role
overwrites the earlier one. -/
def extractReferenceValues (reference_fields : List String) (conversation : Conv) :
    List (String × String) :=
  conversation.foldl
    (fun acc turn =>
      if reference_fields.contains turn.from_ then pyDictSet acc turn.from_ turn.value else acc)
    []

/-- Per-turn processing of the expansion loop (lines 74-92): a static role
keeps the turn unchanged (`turn.copy()`), a dynamic role gets a
paraphrased value with the question flag detected from the original
value. -/
def expandVariantTurn (chat : Backend) (static_fields : List (String × Bool))
    (reference_values : List (String × String)) (turn : Turn) : Turn :=
  if lookupStatic static_fields turn.from_ then turn
  else
    { from_ := turn.from_,
      value := paraphrase_text chat turn.value reference_values (some (is_question turn.value)) }

/-- One expansion variant of a conversation (the body of the `j` loop,
lines 64-94): extract the reference values, then process every turn in
order. -/
def expandVariant (chat : Backend) (static_fields : List (String × Bool))
    (reference_fields : List String) (conversation : Conv) : Conv :=
  let reference_values := extractReferenceValues reference_fields conversation
  conversation.map (expandVariantTurn chat static_fields reference_values)

/-- Embedding of `DatasetExpander.expand_conversation_dataset`
(lines 33-96): for each conversation in order, append
`expansion_factor` variants.  The backend is a fixed function, so the
variants of one conversation coincide; the claims quantify over all
backends. -/
def expand_conversation_dataset (chat : Backend) (conversations : List Conv)
    (expansion_factor : Nat) (static_fields : List (String × Bool))
    (reference_fields : List String) : List Conv :=
  conversations.flatMap (fun conversation =>
    (List.range expansion_factor).map
      (fun _ => expandVariant chat static_fields reference_fields conversation))

/-! ## Helper lemmas about the expansion loop -/

theorem range_map_const {α : Type} (N : Nat) (x : α) :
    (List.range N).map (fun _ => x) = List.replicate N x := by
  induction N with
  | zero => rfl
  | succ n ih =>
    rw [List.range_succ, List.map_append, ih, List.replicate_succ']
    rfl

theorem expand_eq_flatMap_replicate (chat : Backend) (conversations : List Conv)
    (N : Nat) (sf : List (String × Bool)) (rf : List String) :
    expand_conversation_dataset chat conversations N sf rf
      = conversations.flatMap (fun c => List.replicate N (expandVariant chat sf rf c)) := by
  unfold expand_conversation_dataset
  simp only [range_map_const]

theorem flatMap_replicate_length {α β : Type} (l : List α) (f : α → β) (N : Nat) :
    (l.flatMap (fun c => List.replicate N (f c))).length = l.length * N := by
  induction l with
  | nil => simp
  | cons a t ih =>
    simp only [List.flatMap_cons, List.length_append, List.length_replicate, ih,
      List.length_cons]
    ring

theorem flatMap_replicate_getElem {α β : Type} (l : List α) (f : α → β) {N i j : Nat}
    (hi : i < l.length) (hj : j < N) :
    (l.flatMap (fun c => List.replicate N (f c)))[i * N + j]? = some (f (l.get ⟨i, hi⟩)) := by
  induction l generalizing i with
  | nil => simp at hi
  | cons a t ih =>
    simp only [List.flatMap_cons]
    cases i with
    | zero =>
      simp only [Nat.zero_mul, Nat.zero_add]
      rw [List.getElem?_append]
      simp [List.getElem?_replicate, hj]
    | succ i =>
      have hlen : (List.replicate N (f a)).length ≤ (i + 1) * N + j := by
        simp only [List.length_replicate]
        calc N ≤ (i + 1) * N := Nat.le_mul_of_pos_left N (Nat.succ_pos i)
          _ ≤ (i + 1) * N + j := Nat.le_add_right _ _
      rw [List.getElem?_append_right hlen]
      have harith : (i + 1) * N + j - (List.replicate N (f a)).length = i * N + j := by
        simp only [List.length_replicate]
        have : (i + 1) * N = i * N + N := by ring
        omega
      rw [harith]
      exact ih (Nat.lt_of_succ_lt_succ hi)

theorem expand_length (chat : Backend) (conversations : List Conv)
    (N : Nat) (sf : List (String × Bool)) (rf : List String) :
    (expand_conversation_dataset chat conversations N sf rf).length
      = conversations.length * N := by
  rw [expand_eq_flatMap_replicate]
  exact flatMap_replicate_length _ _ _

theorem expand_getElem (chat : Backend) (conversations : List Conv)
    (N : Nat) (sf : List (String × Bool)) (rf : List String) {i j : Nat}
    (hi : i < conversations.length) (hj : j < N) :
    (expand_conversation_dataset chat conversations N sf rf)[i * N + j]?
      = some (expandVariant chat sf rf (conversations.get ⟨i, hi⟩)) := by
  rw [expand_eq_flatMap_replicate]
  exact flatMap_replicate_getElem _ _ hi hj

/-- C1: expansion returns exactly `len(conversations) * N` conversations,
and the entry at flat index `i * N + j` (for `i < len`, `j < N`) is the
expansion variant of original conversation `i`, so output is grouped by
original-conversation index and, within a group, by repeat index. -/
theorem C1_expansion_cardinality_and_order (chat : Backend) (conversations : List Conv)
    (N : Nat) (static_fields : List (String × Bool)) (reference_fields : List String) :
    (expand_conversation_dataset chat conversations N static_fields reference_fields).length
        = conversations.length * N ∧
    ∀ i j (hi : i < conversations.length), j < N →
      (expand_conversation_dataset chat conversations N static_fields reference_fields)[i * N + j]?
        = some (expandVariant chat static_fields reference_fields (conversations.get ⟨i, hi⟩)) :=
  ⟨expand_length _ _ _ _ _, fun _ _ hi hj => expand_getElem _ _ _ _ _ hi hj⟩

/-- C1 witness at a concrete batch, factor and index. -/
theorem C1_witness :
    (expand_conversation_dataset (fun _ => some "Rephrased answer.")
        [[⟨"human", "What is X?"⟩], [⟨"gpt", "X is Y."⟩]] 3 [("human", true)] ["human"])[1 * 3 + 2]?
      = some (expandVariant (fun _ => some "Rephrased answer.") [("human", true)] ["human"]
          ([[⟨"human", "What is X?"⟩], [⟨"gpt", "X is Y."⟩]].get ⟨1, by decide⟩)) :=
  (C1_expansion_cardinality_and_order (fun _ => some "Rephrased answer.")
    [[⟨"human", "What is X?"⟩], [⟨"gpt", "X is Y."⟩]] 3 [("human", true)] ["human"]).2
    1 2 (by decide) (by decide)

/-! ## C2: graceful degradation under a backend that always raises -/

theorem paraphrase_text_failing_backend (text : String)
    (refs : List (String × String)) (isq? : Option Bool) :
    paraphrase_text (fun _ => none) text refs isq? = text := by
  unfold paraphrase_text
  split <;> rfl

theorem verify_paraphrase_failing_backend (original paraphrased : String)
    (reference : List (String × String)) (isq : Bool) :
    verify_paraphrase (fun _ => none) original paraphrased reference isq = paraphrased := rfl

theorem expandVariantTurn_failing_backend (sf : List (String × Bool))
    (refv : List (String × String)) (t : Turn) :
    expandVariantTurn (fun _ => none) sf refv t = t := by
  unfold expandVariantTurn
  rw [paraphrase_text_failing_backend]
  cases t
  split <;> rfl

theorem expandVariant_failing_backend (sf : List (String × Bool)) (rf : List String)
    (c : Conv) : expandVariant (fun _ => none) sf rf c = c := by
  have h : expandVariantTurn (fun _ => none) sf (extractReferenceValues rf c) = id := by
    funext t
    exact expandVariantTurn_failing_backend _ _ t
  simp only [expandVariant, h, List.map_id]

/-- C2: if the backend raises on every call (`fun _ => none`), then
`paraphrase_text` returns its input verbatim, `verify_paraphrase` returns
the unverified paraphrase, and `expand_conversation_dataset` still returns
`len * N` conversations whose entry at index `i * N + j` is the original
conversation `i` with every turn unchanged. -/
theorem C2_graceful_degradation (conversations : List Conv) (N : Nat)
    (static_fields : List (String × Bool)) (reference_fields : List String) :
    (∀ (text : String) (refs : List (String × String)) (isq? : Option Bool),
        paraphrase_text (fun _ => none) text refs isq? = text) ∧
    (∀ (original paraphrased : String) (reference : List (String × String)) (isq : Bool),
        verify_paraphrase (fun _ => none) original paraphrased reference isq = paraphrased) ∧
    (expand_conversation_dataset (fun _ => none) conversations N static_fields
        reference_fields).length = conversations.length * N ∧
    ∀ i j (hi : i < conversations.length), j < N →
      (expand_conversation_dataset (fun _ => none) conversations N static_fields
          reference_fields)[i * N + j]? = some (conversations.get ⟨i, hi⟩) := by
  refine ⟨paraphrase_text_failing_backend, verify_paraphrase_failing_backend,
    expand_length _ _ _ _ _, fun i j hi hj => ?_⟩
  rw [expand_getElem _ _ _ _ _ hi hj, expandVariant_failing_backend]

/-- C2 witness at a concrete batch and index. -/
theorem C2_witness :
    (expand_conversation_dataset (fun _ => none)
        [[⟨"human", "What is X?"⟩, ⟨"gpt", "X is Y."⟩]] 2 [] [])[0 * 2 + 1]?
      = some [⟨"human", "What is X?"⟩, ⟨"gpt", "X is Y."⟩] := by
  have h := (C2_graceful_degradation
    [[⟨"human", "What is X?"⟩, ⟨"gpt", "X is Y."⟩]] 2 [] []).2.2.2 0 1 (by decide) (by decide)
  exact h

/-! ## C3: static-field invariance -/

/-- The static-field policy named by C3. -/
def staticHumanPolicy : List (String × Bool) := [("human", true), ("gpt", false)]

/-- C3: with policy `\x7bhuman: true, gpt: false\x7d` every human turn of
every expanded conversation equals the original human turn at the same
position; a role absent from the policy mapping looks up to `false`
(dynamic), and a dynamic turn is rebuilt with a paraphrased value. -/
theorem C3_static_field_invariance (chat : Backend) (conversations : List Conv)
    (N : Nat) (reference_fields : List String) :
    (∀ (i j k : Nat) (hi : i < conversations.length), j < N →
      ∀ t : Turn, (conversations.get ⟨i, hi⟩)[k]? = some t → t.from_ = "human" →
      ∃ ec, (expand_conversation_dataset chat conversations N staticHumanPolicy
          reference_fields)[i * N + j]? = some ec ∧ ec[k]? = some t) ∧
    (∀ (sf : List (String × Bool)) (role : String),
      role ∉ sf.map Prod.fst → lookupStatic sf role = false) ∧
    (∀ (sf : List (String × Bool)) (refv : List (String × String)) (t : Turn),
      lookupStatic sf t.from_ = false →
      expandVariantTurn chat sf refv t
        = ⟨t.from_, paraphrase_text chat t.value refv (some (is_question t.value))⟩) := by
  refine ⟨fun i j k hi hj t hk hhuman => ?_, fun sf role habs => ?_, fun sf refv t hdyn => ?_⟩
  · refine ⟨expandVariant chat staticHumanPolicy reference_fields (conversations.get ⟨i, hi⟩),
      expand_getElem _ _ _ _ _ hi hj, ?_⟩
    simp only [expandVariant, List.getElem?_map, hk, Option.map_some']
    have hstat : lookupStatic staticHumanPolicy t.from_ = true := by
      rw [hhuman]; rfl
    simp [expandVariantTurn, hstat]
  · unfold lookupStatic
    rw [List.find?_eq_none.mpr]
    · rfl
    · intro kv hkv
      simp only [decide_eq_true_eq]
      intro heq
      exact habs (heq ▸ List.mem_map_of_mem Prod.fst hkv)
  · simp [expandVariantTurn, hdyn]

/-- C3 witness at a concrete conversation and index. -/
theorem C3_witness :
    ∃ ec, (expand_conversation_dataset (fun _ => some "B is A, restated.")
        [[⟨"human", "Q?"⟩, ⟨"gpt", "A."⟩]] 1 staticHumanPolicy [])[0 * 1 + 0]? = some ec ∧
      ec[0]? = some (⟨"human", "Q?"⟩ : Turn) :=
  (C3_static_field_invariance (fun _ => some "B is A, restated.")
    [[⟨"human", "Q?"⟩, ⟨"gpt", "A."⟩]] 1 []).1 0 0 0 (by decide) (by decide)
    ⟨"human", "Q?"⟩ (by decide) rfl

/-! ## C6: question-form preservation -/

theorem is_question_strip_ne (text : String) (h : is_question text = true) :
    (pyStripL text.data).isEmpty = false := by
  cases he : (pyStripL text.data).isEmpty
  · rfl
  · exfalso
    rw [List.isEmpty_iff] at he
    simp only [is_question] at h
    rw [he] at h
    exact absurd h (by decide)

theorem clean_question_ends (s : String) :
    ∃ out, clean_generated_content s true = some out ∧ out.data.getLast? = some '?' := by
  refine ⟨⟨if pyEndsWithChar (cleanCore s.data) '?' then cleanCore s.data
           else cleanCore s.data ++ ['?']⟩, rfl, ?_⟩
  by_cases h : (cleanCore s.data).getLast? = some '?'
  · have hb : pyEndsWithChar (cleanCore s.data) '?' = true := by
      simp [pyEndsWithChar, h]
    simp [hb, h]
  · have hb : pyEndsWithChar (cleanCore s.data) '?' = false := by
      simp [pyEndsWithChar, h]
    simp [hb, List.getLast?_concat]

/-- C6: when the input is detected as a question and the generation call
returns (the verification call may still succeed or raise), the output of
`paraphrase_text` is the paraphrased-and-cleaned text and ends with a
question mark. -/
theorem C6_question_form_preserved (chat : Backend) (text : String)
    (refs : List (String × String)) (r : String)
    (hq : is_question text = true)
    (hchat : chat (paraphraseMessages text refs true) = some r) :
    (paraphrase_text chat text refs none).data.getLast? = some '?' := by
  obtain ⟨out, hclean, hlast⟩ := clean_question_ends
    (verify_paraphrase chat text (pyStrip r) refs true)
  simp only [paraphrase_text, is_question_strip_ne text hq, Bool.false_eq_true, if_false,
    Option.getD_none, hq, hchat, hclean]
  exact hlast

/-- C6 witness: a concrete question and a backend returning a completion
with no question mark still yield an output ending in a question mark. -/
theorem C6_witness :
    is_question "What is attention?" = true ∧
    (paraphrase_text (fun _ => some "It is the weighting mechanism")
        "What is attention?" [] none).data.getLast? = some '?' :=
  ⟨by decide, C6_question_form_preserved (fun _ => some "It is the weighting mechanism")
    "What is attention?" [] "It is the weighting mechanism" (by decide) rfl⟩

/-! ## C9: clean_generated_content is not total -/

/-- C9: `clean_generated_content` raises `IndexError` (modelled `none`) on
the empty string with `is_question = False`, because the statement branch
evaluates `text[-1]` without an emptiness guard; the question branch and
nonempty statements return normally. -/
theorem C9_clean_empty_statement_raises :
    clean_generated_content "" false = none ∧
    clean_generated_content "" true = some "?" ∧
    clean_generated_content "Hi" false = some "Hi." := by
  refine ⟨rfl, by decide, by decide⟩

/-! ## C8: convert_conversations_to_dataframe -/

/-- Python `range(start, stop, step)` over Python ints, for a positive
step (the repository only uses `range(0, len-1, 2)`). -/
def pyRange (start stop step : Int) : List Int :=
  (List.range ((stop - start + step - 1).toNat / step.toNat)).map
    (fun k : Nat => start + step * (k : Int))

/-- A row of the paired question/answer view. -/
structure QARow where
  instruction : String
  input : String
  output : String
deriving DecidableEq, Repr

/-- The fixed instruction string of the paired view. -/
def pairedInstruction : String :=
  "Answer the user" ++ aposStr ++ "s question about the research paper."

/-- Row emitted for index `i` of one conversation by the loop body of
`convert_conversations_to_dataframe` (lines 385-392). -/
def pairRowAt (conversation : Conv) (i : Int) : Option QARow :=
  if i + 1 < (conversation.length : Int) then
    match conversation[i.toNat]?, conversation[(i + 1).toNat]? with
    | some t1, some t2 =>
      if t1.from_ = "human" ∧ t2.from_ = "gpt" then
        some ⟨pairedInstruction, t1.value, t2.value⟩
      else none
    | _, _ => none
  else none

/-- Embedding of `DatasetExpander.convert_conversations_to_dataframe`
(lines 371-394): for each conversation, scan `range(0, len-1, 2)` and emit
one row for each index pair whose first role is `human` and second role is
`gpt`; the DataFrame is modelled as the list of its rows. -/
def convert_conversations_to_dataframe (conversations : List Conv) : List QARow :=
  conversations.flatMap (fun conversation =>
    (pyRange 0 ((conversation.length : Int) - 1) 2).filterMap (pairRowAt conversation))

theorem filterMap_congr_mem {α β : Type} {f g : α → Option β} :
    ∀ {l : List α}, (∀ a ∈ l, f a = g a) → l.filterMap f = l.filterMap g := by
  intro l
  induction l with
  | nil => intro _; rfl
  | cons a t ih =>
    intro h
    simp only [List.filterMap_cons, h a (List.mem_cons_self a t),
      ih (fun b hb => h b (List.mem_cons_of_mem a hb))]

theorem pyRange_pair_step (n : Nat) :
    pyRange 0 ((n : Int) + 1) 2 = 0 :: (pyRange 0 ((n : Int) - 1) 2).map (fun i => i + 2) := by
  unfold pyRange
  have h1 : ((n : Int) + 1 - 0 + 2 - 1).toNat = n + 2 := by omega
  have h2 : ((n : Int) - 1 - 0 + 2 - 1).toNat = n := by omega
  have h3 : (2 : Int).toNat = 2 := rfl
  rw [h1, h2, h3, Nat.add_div_right n (by omega), List.range_succ_eq_map]
  simp only [List.map_cons, List.map_map]
  refine List.cons_eq_cons.mpr ⟨by norm_num, List.map_congr_left fun k _ => ?_⟩
  simp only [Function.comp_apply, Nat.succ_eq_add_one]
  push_cast
  ring

theorem pairRowAt_cons_cons (t1 t2 : Turn) (rest : Conv) (j : Int) (hj : 0 ≤ j) :
    pairRowAt (t1 :: t2 :: rest) (j + 2) = pairRowAt rest j := by
  unfold pairRowAt
  have hcond : (j + 2 + 1 < ((t1 :: t2 :: rest).length : Int))
      ↔ (j + 1 < (rest.length : Int)) := by
    simp only [List.length_cons]
    push_cast
    omega
  have hidx1 : (j + 2).toNat = j.toNat + 2 := by omega
  have hidx2 : (j + 2 + 1).toNat = (j + 1).toNat + 2 := by omega
  rw [hidx1, hidx2]
  simp only [List.getElem?_cons_succ]
  by_cases h : j + 1 < (rest.length : Int)
  · rw [if_pos (hcond.mpr h), if_pos h]
  · rw [if_neg (fun hc => h (hcond.mp hc)), if_neg h]

/-- C8: the paired view scans each conversation in non-overlapping
adjacent index pairs, emits one row exactly for a (human, gpt) pair,
silently skips other pairs and a trailing unpaired turn, concatenates
per-conversation rows in batch order, and the three-turn example yields
exactly the one row pairing Q1 with A1. -/
theorem C8_paired_view_filtering :
    (∀ (t1 t2 : Turn) (rest : Conv),
      convert_conversations_to_dataframe [t1 :: t2 :: rest]
        = (if t1.from_ = "human" ∧ t2.from_ = "gpt"
           then [⟨pairedInstruction, t1.value, t2.value⟩] else [])
          ++ convert_conversations_to_dataframe [rest]) ∧
    (∀ t : Turn, convert_conversations_to_dataframe [[t]] = []) ∧
    convert_conversations_to_dataframe [[]] = [] ∧
    (∀ conversations : List Conv, convert_conversations_to_dataframe conversations
        = conversations.flatMap (fun c => convert_conversations_to_dataframe [c])) ∧
    convert_conversations_to_dataframe
        [[⟨"human", "Q1"⟩, ⟨"gpt", "A1"⟩, ⟨"human", "Q2"⟩]]
      = [⟨pairedInstruction, "Q1", "A1"⟩] := by
  have hsingle : ∀ c : Conv, convert_conversations_to_dataframe [c]
      = (pyRange 0 ((c.length : Int) - 1) 2).filterMap (pairRowAt c) := by
    intro c
    unfold convert_conversations_to_dataframe
    simp
  refine ⟨fun t1 t2 rest => ?_,
    fun t => by
      unfold convert_conversations_to_dataframe pyRange
      norm_num
      intro a ha
      have hz : (Int.toNat 2 - 1) / Int.toNat 2 = 0 := rfl
      rw [hz] at ha
      exact absurd ha (Nat.not_lt_zero a), rfl,
    fun conversations => ?_, by decide⟩
  · rw [hsingle, hsingle]
    have hlen : ((t1 :: t2 :: rest).length : Int) - 1 = (rest.length : Int) + 1 := by
      simp only [List.length_cons]
      push_cast
      ring
    rw [hlen, pyRange_pair_step rest.length, List.filterMap_cons, List.filterMap_map]
    have htail : (pyRange 0 ((rest.length : Int) - 1) 2).filterMap
          (pairRowAt (t1 :: t2 :: rest) ∘ fun i => i + 2)
        = (pyRange 0 ((rest.length : Int) - 1) 2).filterMap (pairRowAt rest) := by
      apply filterMap_congr_mem
      intro j hj
      obtain ⟨k, _, hk⟩ := List.mem_map.mp hj
      have hj0 : 0 ≤ j := by
        rw [← hk]
        positivity
      exact pairRowAt_cons_cons t1 t2 rest j hj0
    rw [htail]
    have hhead : pairRowAt (t1 :: t2 :: rest) 0
        = if t1.from_ = "human" ∧ t2.from_ = "gpt"
          then some ⟨pairedInstruction, t1.value, t2.value⟩ else none := by
      unfold pairRowAt
      rw [if_pos (by simp only [List.length_cons]; push_cast; omega)]
      have e0 : ((0 : Int)).toNat = 0 := rfl
      have e1 : ((0 : Int) + 1).toNat = 1 := rfl
      rw [e0, e1]
      simp only [List.getElem?_cons_zero, List.getElem?_cons_succ]
    rw [hhead]
    by_cases hm : t1.from_ = "human" ∧ t2.from_ = "gpt"
    · rw [if_pos hm, if_pos hm]
      rfl
    · rw [if_neg hm, if_neg hm]
      rfl
  · unfold convert_conversations_to_dataframe
    simp

/-! ## C10: OllamaConversationGenerator.chunk_text

Embedding of `chunk_text` (conversation_generator.py, lines 388-422).
Python ints are `Int` (the loop can drive `start` negative), slicing and
`str.rfind` use Python index clamping, and the unbounded `while` loop gets
an explicit fuel parameter: a run that exhausts any fuel is `none`, so a
function value of `none` for every fuel is a non-terminating loop. -/

/-- Python slice-index clamping for a sequence of length `n`: a negative
index counts from the end, results are clamped into `[0, n]`. -/
def pySliceIndex (n : Nat) (x : Int) : Nat :=
  if x < 0 then (x + n).toNat else min x.toNat n

/-- Python `content[a:b]`. -/
def pySlice (l : List Char) (a b : Int) : List Char :=
  (l.take (pySliceIndex l.length b)).drop (pySliceIndex l.length a)

/-- Python `content[a:]`. -/
def pySliceFrom (l : List Char) (a : Int) : List Char :=
  l.drop (pySliceIndex l.length a)

/-- Python `content.rfind(pat, a, b)`: the greatest index `k` with
`a' ≤ k`, `k + len(pat) ≤ b'` (clamped bounds) at which `pat` occurs,
or `-1`. -/
def pyRfind (s pat : List Char) (a b : Int) : Int :=
  let lo := pySliceIndex s.length a
  let hi := pySliceIndex s.length b
  match ((List.range (s.length + 1)).filter
      (fun k => lo ≤ k && k + pat.length ≤ hi && pyStartsWith (s.drop k) pat)).getLast? with
  | some k => (k : Int)
  | none => -1

/-- Boundary strings tried in order by `chunk_text` (line 413). -/
def boundarySeps : List String := ["\n\n", "\n", ". ", "? ", "! "]

/-- The boundary adjustment of the loop body (lines 413-417): the first
boundary whose rightmost occurrence position is greater than `start`
replaces `e` by that position plus the boundary length. -/
def chunkBoundary (content : List Char) (start e : Int) : Int :=
  (boundarySeps.findSome? (fun b =>
    let pos := pyRfind content b.data start e
    if start < pos then some (pos + (b.length : Int)) else none)).getD e

/-- Outcome of one iteration of the `while start < len(content)` body. -/
inductive ChunkStep where
  | stop
  | finish (chunk : List Char)
  | continueWith (chunk : List Char) (nextStart : Int)
deriving DecidableEq, Repr

/-- One iteration of the `chunk_text` loop body (lines 406-420): exit when
`start ≥ len`, append the final slice and break when `start + chunk_size`
reaches the end, otherwise emit `content[start:end]` with the
boundary-adjusted end and continue from `end - overlap`. -/
def chunkStep (content : List Char) (chunk_size overlap start : Int) : ChunkStep :=
  if start < (content.length : Int) then
    if (content.length : Int) ≤ start + chunk_size then
      ChunkStep.finish (pySliceFrom content start)
    else
      let e2 := chunkBoundary content start (start + chunk_size)
      ChunkStep.continueWith (pySlice content start e2) (e2 - overlap)
  else ChunkStep.stop

/-- The `while` loop of `chunk_text`, with fuel. -/
def chunkTextLoop (content : List Char) (chunk_size overlap : Int) :
    Nat → Int → List (List Char) → Option (List (List Char))
  | 0, _, _ => none
  | fuel + 1, start, chunks =>
    match chunkStep content chunk_size overlap start with
    | ChunkStep.stop => some chunks
    | ChunkStep.finish c => some (chunks ++ [c])
    | ChunkStep.continueWith c s2 => chunkTextLoop content chunk_size overlap fuel s2 (chunks ++ [c])

/-- Embedding of `chunk_text`: content no longer than `chunk_size` is
returned whole, otherwise the loop runs from `start = 0`. -/
def chunk_text (fuel : Nat) (content : List Char) (chunk_size overlap : Int) :
    Option (List (List Char)) :=
  if (content.length : Int) ≤ chunk_size then some [content]
  else chunkTextLoop content chunk_size overlap fuel 0 []

/-- Content on which the loop never advances with `chunk_size = 5`,
`overlap = 3`: the window `[0, 5)` always finds the newline at index 2, so
`end = 3` and the next start is `3 - 3 = 0` again. -/
def chunkDemoContent : List Char := ['a', 'b', '\n', 'c', 'd', 'e', 'f', 'g', 'h']

theorem chunkDemo_step :
    chunkStep chunkDemoContent 5 3 0
      = ChunkStep.continueWith ['a', 'b', '\n'] 0 := by decide

theorem chunkDemo_loop_diverges (fuel : Nat) :
    ∀ chunks, chunkTextLoop chunkDemoContent 5 3 fuel 0 chunks = none := by
  induction fuel with
  | zero => intro chunks; rfl
  | succ n ih =>
    intro chunks
    rw [chunkTextLoop, chunkDemo_step]
    exact ih (chunks ++ [['a', 'b', '\n']])

/-- C10: `chunk_text` does not terminate for every input with
`chunk_size > overlap > 0`: with `chunk_size = 5 > overlap = 3 > 0` and
the nine-character content `ab\ncdefgh`, the loop revisits `start = 0`
forever, so the fuelled embedding returns `none` for every fuel.  (The
same pattern defeats the defaults `chunk_size=2000, overlap=200`, e.g. a
newline at index 1001 of an otherwise boundary-free long text keeps
`start` at 802.) -/
theorem C10_chunk_text_divergence :
    (0 : Int) < 3 ∧ (3 : Int) < 5 ∧ (5 : Int) < (chunkDemoContent.length : Int) ∧
    ∀ fuel : Nat, chunk_text fuel chunkDemoContent 5 3 = none := by
  refine ⟨by decide, by decide, by decide, fun fuel => ?_⟩
  unfold chunk_text
  rw [if_neg (by decide)]
  exact chunkDemo_loop_diverges fuel []

/-! ## Conversation format validator (C4, C5)

Embedding of `OllamaConversationGenerator._validate_conversation_format`
(conversation_generator.py, lines 182-228).  A turn here is an arbitrary
string-keyed dict (values of the keys the validator touches are strings),
modelled as an insertion-ordered association list with unique keys; a
raised `ValueError` is `none`.  The Python code mutates turns in place;
the embedding returns the mutated conversation. -/

/-- A turn-like record with arbitrary keys. -/
abbrev PyDict := List (String × String)

/-- Python `str.lower()`. -/
def pyLowerS (s : String) : String := ⟨pyLowerL s.data⟩

/-- Role value computed from a `role`/`speaker` alias (lines 204/206):
`'human' if value in ['user', 'human'] else 'gpt'`, case-sensitively. -/
def roleFromAlias (v : String) : String :=
  if v = "user" ∨ v = "human" then "human" else "gpt"

/-- The positional default role (lines 208-209 and 227-228):
even position → human, odd position → gpt. -/
def parityRole (i : Nat) : String := if i % 2 = 0 then "human" else "gpt"

/-- From-value aliases normalised to `gpt` (line 221). -/
def gptAliases : List String := ["assistant", "ai", "bot", "claude"]

/-- From-value aliases normalised to `human` (line 223). -/
def humanAliases : List String := ["user", "human", "person"]

/-- Value-key aliases checked in priority order (line 213). -/
def valueAliases : List String := ["content", "message", "text"]

/-- Stage 1 (lines 202-209): ensure a `from` key, deriving it from `role`,
then `speaker`, then the position parity. -/
def resolveFromStage (i : Nat) (turn : PyDict) : PyDict :=
  if pyDictContains turn "from" then turn
  else if pyDictContains turn "role" then
    pyDictSet turn "from" (roleFromAlias ((pyDictGet turn "role").getD ""))
  else if pyDictContains turn "speaker" then
    pyDictSet turn "from" (roleFromAlias ((pyDictGet turn "speaker").getD ""))
  else pyDictSet turn "from" (parityRole i)

/-- Stage 2 (lines 212-218): ensure a `value` key from the first present
alias; raise (`none`) when no alias is present either. -/
def resolveValueStage (turn : PyDict) : Option PyDict :=
  if pyDictContains turn "value" then some turn
  else
    match valueAliases.find? (fun k => pyDictContains turn k) with
    | some k => some (pyDictSet turn "value" ((pyDictGet turn k).getD ""))
    | none => none

/-- Final guard of stage 3 (lines 226-228): force `from` to the position
parity when it is neither `human` nor `gpt`. -/
def finalFromStage (i : Nat) (t3 : PyDict) : PyDict :=
  if (pyDictGet t3 "from").getD "" = "human" ∨ (pyDictGet t3 "from").getD "" = "gpt" then t3
  else pyDictSet t3 "from" (parityRole i)

/-- Stage 3 (lines 221-228): normalise the `from` value case-insensitively
through the alias lists, then force it to `human`/`gpt` by the position
parity if it is still neither. -/
def normalizeFromStage (i : Nat) (turn : PyDict) : PyDict :=
  let f := (pyDictGet turn "from").getD ""
  finalFromStage i
    (if gptAliases.contains (pyLowerS f) then pyDictSet turn "from" "gpt"
     else if humanAliases.contains (pyLowerS f) then pyDictSet turn "from" "human"
     else turn)

/-- Validation of the turn at position `i`. -/
def validateTurn (i : Nat) (turn : PyDict) : Option PyDict :=
  match resolveValueStage (resolveFromStage i turn) with
  | none => none
  | some t2 => some (normalizeFromStage i t2)

/-- The loop of `_validate_conversation_format` from position `i`. -/
def validateFrom : Nat → List PyDict → Option (List PyDict)
  | _, [] => some []
  | i, t :: ts =>
    match validateTurn i t with
    | none => none
    | some t2 =>
      match validateFrom (i + 1) ts with
      | none => none
      | some ts2 => some (t2 :: ts2)

/-- Embedding of `_validate_conversation_format`: validate every turn in
position order; the conversation after the in-place mutations, or `none`
when a `ValueError` is raised. -/
def validate_conversation_format (conversation : List PyDict) : Option (List PyDict) :=
  validateFrom 0 conversation

/-! ### Association-list lemmas -/

theorem pyDictGet_set_self (d : PyDict) (k v : String) :
    pyDictGet (pyDictSet d k v) k = some v := by
  induction d with
  | nil => simp [pyDictSet, pyDictGet, List.find?]
  | cons a t ih =>
    by_cases h : a.1 = k
    · simp [pyDictSet, h, pyDictGet, List.find?]
    · simp only [pyDictSet, if_neg h]
      simpa [pyDictGet, List.find?_cons, h] using ih

theorem pyDictGet_set_ne (d : PyDict) (k v k' : String) (h : k' ≠ k) :
    pyDictGet (pyDictSet d k v) k' = pyDictGet d k' := by
  induction d with
  | nil => simp [pyDictSet, pyDictGet, List.find?, Ne.symm h]
  | cons a t ih =>
    by_cases ha : a.1 = k
    · simp [pyDictSet, ha, pyDictGet, List.find?_cons, Ne.symm h]
    · simp only [pyDictSet, if_neg ha]
      by_cases ha' : a.1 = k'
      · simp [pyDictGet, List.find?_cons, ha']
      · simpa [pyDictGet, List.find?_cons, ha'] using ih

theorem pyDictContains_eq_isSome (d : PyDict) (k : String) :
    pyDictContains d k = (pyDictGet d k).isSome := by
  induction d with
  | nil => rfl
  | cons a t ih =>
    by_cases h : a.1 = k
    · simp [pyDictContains, pyDictGet, List.find?_cons, h]
    · simpa [pyDictContains, pyDictGet, List.find?_cons, h] using ih

theorem pyDictContains_set_self (d : PyDict) (k v : String) :
    pyDictContains (pyDictSet d k v) k = true := by
  rw [pyDictContains_eq_isSome, pyDictGet_set_self]
  rfl

theorem pyDictContains_set_ne (d : PyDict) (k v k' : String) (h : k' ≠ k) :
    pyDictContains (pyDictSet d k v) k' = pyDictContains d k' := by
  rw [pyDictContains_eq_isSome, pyDictContains_eq_isSome, pyDictGet_set_ne d k v k' h]

/-! ### Stage lemmas -/

theorem resolveValueStage_from (turn t2 : PyDict) (h : resolveValueStage turn = some t2) :
    pyDictGet t2 "from" = pyDictGet turn "from" ∧ pyDictContains t2 "value" = true := by
  unfold resolveValueStage at h
  by_cases hv : pyDictContains turn "value" = true
  · rw [if_pos hv] at h
    cases h
    exact ⟨rfl, hv⟩
  · rw [if_neg hv] at h
    cases hfind : valueAliases.find? (fun k => pyDictContains turn k) with
    | none => rw [hfind] at h; cases h
    | some k =>
      rw [hfind] at h
      cases h
      exact ⟨pyDictGet_set_ne _ _ _ _ (by decide), pyDictContains_set_self _ _ _⟩

theorem finalFromStage_get (i : Nat) (t3 : PyDict) :
    pyDictGet (finalFromStage i t3) "from" = some "human" ∨
    pyDictGet (finalFromStage i t3) "from" = some "gpt" := by
  unfold finalFromStage
  by_cases hok : (pyDictGet t3 "from").getD "" = "human" ∨ (pyDictGet t3 "from").getD "" = "gpt"
  · rw [if_pos hok]
    cases hget : pyDictGet t3 "from" with
    | none =>
      rw [hget] at hok
      simp only [Option.getD_none] at hok
      rcases hok with h | h <;> exact absurd h (by decide)
    | some v =>
      rw [hget] at hok
      simp only [Option.getD_some] at hok
      rcases hok with h | h
      · left
        rw [h]
      · right
        rw [h]
  · rw [if_neg hok]
    have hset := pyDictGet_set_self t3 "from" (parityRole i)
    by_cases hp : i % 2 = 0
    · left
      have hpr : parityRole i = "human" := by simp [parityRole, hp]
      rw [hpr] at hset ⊢
      exact hset
    · right
      have hpr : parityRole i = "gpt" := by simp [parityRole, hp]
      rw [hpr] at hset ⊢
      exact hset

theorem finalFromStage_contains_value (i : Nat) (t3 : PyDict)
    (h : pyDictContains t3 "value" = true) :
    pyDictContains (finalFromStage i t3) "value" = true := by
  unfold finalFromStage
  split
  · exact h
  · rw [pyDictContains_set_ne _ _ _ _ (by decide)]
    exact h

theorem normalizeFromStage_get (i : Nat) (turn : PyDict) :
    pyDictGet (normalizeFromStage i turn) "from" = some "human" ∨
    pyDictGet (normalizeFromStage i turn) "from" = some "gpt" :=
  finalFromStage_get i _

theorem normalizeFromStage_contains_value (i : Nat) (turn : PyDict)
    (h : pyDictContains turn "value" = true) :
    pyDictContains (normalizeFromStage i turn) "value" = true := by
  unfold normalizeFromStage
  apply finalFromStage_contains_value
  split
  · rw [pyDictContains_set_ne _ _ _ _ (by decide)]
    exact h
  · split
    · rw [pyDictContains_set_ne _ _ _ _ (by decide)]
      exact h
    · exact h

/-! ### Per-branch lemmas for role resolution -/

theorem resolveFromStage_has_from (i : Nat) (turn : PyDict)
    (h : pyDictContains turn "from" = true) : resolveFromStage i turn = turn := by
  unfold resolveFromStage
  rw [if_pos h]

theorem resolveFromStage_role (i : Nat) (turn : PyDict)
    (hf : pyDictContains turn "from" = false) (hr : pyDictContains turn "role" = true) :
    resolveFromStage i turn
      = pyDictSet turn "from" (roleFromAlias ((pyDictGet turn "role").getD "")) := by
  unfold resolveFromStage
  rw [if_neg (by simp [hf]), if_pos hr]

theorem resolveFromStage_speaker (i : Nat) (turn : PyDict)
    (hf : pyDictContains turn "from" = false) (hr : pyDictContains turn "role" = false)
    (hs : pyDictContains turn "speaker" = true) :
    resolveFromStage i turn
      = pyDictSet turn "from" (roleFromAlias ((pyDictGet turn "speaker").getD "")) := by
  unfold resolveFromStage
  rw [if_neg (by simp [hf]), if_neg (by simp [hr]), if_pos hs]

theorem resolveFromStage_parity (i : Nat) (turn : PyDict)
    (hf : pyDictContains turn "from" = false) (hr : pyDictContains turn "role" = false)
    (hs : pyDictContains turn "speaker" = false) :
    resolveFromStage i turn = pyDictSet turn "from" (parityRole i) := by
  unfold resolveFromStage
  rw [if_neg (by simp [hf]), if_neg (by simp [hr]), if_neg (by simp [hs])]

theorem normalizeFromStage_get_known (i : Nat) (t2 : PyDict) (v : String)
    (h : pyDictGet t2 "from" = some v) :
    pyDictGet (normalizeFromStage i t2) "from" = some
      (if gptAliases.contains (pyLowerS v) then "gpt"
       else if humanAliases.contains (pyLowerS v) then "human"
       else if v = "human" ∨ v = "gpt" then v
       else parityRole i) := by
  simp only [normalizeFromStage, finalFromStage, h, Option.getD_some]
  by_cases hg : pyLowerS v ∈ gptAliases
  · simp [hg, pyDictGet_set_self]
  · by_cases hh : pyLowerS v ∈ humanAliases
    · simp [hg, hh, pyDictGet_set_self]
    · by_cases hv : v = "human" ∨ v = "gpt"
      · simp [hg, hh, h, hv]
      · simp [hg, hh, h, hv, pyDictGet_set_self]

theorem roleFromAlias_cases (v : String) :
    roleFromAlias v = "human" ∨ roleFromAlias v = "gpt" := by
  unfold roleFromAlias
  split
  · exact Or.inl rfl
  · exact Or.inr rfl

theorem parityRole_cases (i : Nat) : parityRole i = "human" ∨ parityRole i = "gpt" := by
  unfold parityRole
  split
  · exact Or.inl rfl
  · exact Or.inr rfl

theorem normalizedFromValue_canonical (i : Nat) (w : String)
    (hw : w = "human" ∨ w = "gpt") :
    (if gptAliases.contains (pyLowerS w) then "gpt"
     else if humanAliases.contains (pyLowerS w) then "human"
     else if w = "human" ∨ w = "gpt" then w
     else parityRole i) = w := by
  rcases hw with rfl | rfl
  · have h1 : gptAliases.contains (pyLowerS "human") = false := by decide
    have h2 : humanAliases.contains (pyLowerS "human") = true := by decide
    rw [h1, h2]
    simp
  · have h1 : gptAliases.contains (pyLowerS "gpt") = false := by decide
    have h2 : humanAliases.contains (pyLowerS "gpt") = false := by decide
    rw [h1, h2]
    simp

theorem validateTurn_some_elim (i : Nat) (turn t' : PyDict)
    (h : validateTurn i turn = some t') :
    ∃ t2, resolveValueStage (resolveFromStage i turn) = some t2
      ∧ t' = normalizeFromStage i t2 := by
  unfold validateTurn at h
  cases hv : resolveValueStage (resolveFromStage i turn) with
  | none => rw [hv] at h; cases h
  | some t2 =>
    rw [hv] at h
    cases h
    exact ⟨t2, rfl, rfl⟩

/-! ## C4: alias normalization -/

/-- C4 counterexample: the validator adds the canonical keys but never
deletes alias keys, so `\x7brole: assistant, content: X\x7d` validates to
a four-key turn that still contains `role` (and `content`), not to exactly
`\x7bfrom: gpt, value: X\x7d`. -/
theorem C4_counterexample :
    validate_conversation_format [[("role", "assistant"), ("content", "X")]]
      = some [[("role", "assistant"), ("content", "X"), ("from", "gpt"), ("value", "X")]] ∧
    validate_conversation_format [[("role", "assistant"), ("content", "X")]]
      ≠ some [[("from", "gpt"), ("value", "X")]] ∧
    pyDictContains [("role", "assistant"), ("content", "X"), ("from", "gpt"), ("value", "X")]
      "role" = true := by decide

theorem validateTurn_canonical (i : Nat) (turn t' : PyDict)
    (h : validateTurn i turn = some t') :
    pyDictContains t' "from" = true ∧ pyDictContains t' "value" = true ∧
    (pyDictGet t' "from" = some "human" ∨ pyDictGet t' "from" = some "gpt") := by
  obtain ⟨t2, hv, rfl⟩ := validateTurn_some_elim i turn t' h
  obtain ⟨-, hval⟩ := resolveValueStage_from _ _ hv
  have hget := normalizeFromStage_get i t2
  have hcont : pyDictContains (normalizeFromStage i t2) "from" = true := by
    rw [pyDictContains_eq_isSome]
    rcases hget with h | h <;> rw [h] <;> rfl
  exact ⟨hcont, normalizeFromStage_contains_value i t2 hval, hget⟩

theorem validateFrom_canonical (conv : List PyDict) :
    ∀ (i : Nat) (conv' : List PyDict), validateFrom i conv = some conv' →
    ∀ t' ∈ conv', pyDictContains t' "from" = true ∧ pyDictContains t' "value" = true ∧
      (pyDictGet t' "from" = some "human" ∨ pyDictGet t' "from" = some "gpt") := by
  induction conv with
  | nil =>
    intro i conv' h t' ht'
    cases h
    cases ht'
  | cons t ts ih =>
    intro i conv' h t' ht'
    unfold validateFrom at h
    cases hvt : validateTurn i t with
    | none => rw [hvt] at h; cases h
    | some t2 =>
      rw [hvt] at h
      cases hrec : validateFrom (i + 1) ts with
      | none => rw [hrec] at h; cases h
      | some ts2 =>
        rw [hrec] at h
        cases h
        rcases List.mem_cons.mp ht' with rfl | hmem
        · exact validateTurn_canonical i t t' hvt
        · exact ih (i + 1) ts2 hrec t' hmem

/-- C4 (amended): every turn of a validated conversation contains the
canonical keys `from` and `value`, with `from` equal to `human` or `gpt`;
but alias keys are retained rather than removed, and the example turn
validates to the four-key dict that extends the original with
`from: gpt, value: X`. -/
theorem C4_canonical_keys_amended :
    (∀ (conv conv' : List PyDict), validate_conversation_format conv = some conv' →
      ∀ t' ∈ conv', pyDictContains t' "from" = true ∧ pyDictContains t' "value" = true ∧
        (pyDictGet t' "from" = some "human" ∨ pyDictGet t' "from" = some "gpt")) ∧
    validate_conversation_format [[("role", "assistant"), ("content", "X")]]
      = some [[("role", "assistant"), ("content", "X"), ("from", "gpt"), ("value", "X")]] := by
  refine ⟨fun conv conv' h => validateFrom_canonical conv 0 conv' h, by decide⟩

/-- C4 witness at the concrete example turn. -/
theorem C4_witness :
    pyDictContains [("role", "assistant"), ("content", "X"), ("from", "gpt"), ("value", "X")]
        "from" = true ∧
    pyDictContains [("role", "assistant"), ("content", "X"), ("from", "gpt"), ("value", "X")]
        "value" = true ∧
    (pyDictGet [("role", "assistant"), ("content", "X"), ("from", "gpt"), ("value", "X")]
        "from" = some "human" ∨
     pyDictGet [("role", "assistant"), ("content", "X"), ("from", "gpt"), ("value", "X")]
        "from" = some "gpt") :=
  C4_canonical_keys_amended.1 [[("role", "assistant"), ("content", "X")]]
    [[("role", "assistant"), ("content", "X"), ("from", "gpt"), ("value", "X")]]
    (by decide)
    [("role", "assistant"), ("content", "X"), ("from", "gpt"), ("value", "X")]
    (by simp)

/-! ## C5: role resolution -/

/-- C5 counterexample: through the `role` alias the mapping is
case-sensitive and maps everything outside `\x7buser, human\x7d` to
`gpt`, so `role: person` and `role: User` both resolve to `gpt`, where
the claim demands `human`. -/
theorem C5_counterexample :
    validateTurn 0 [("role", "person"), ("value", "x")]
      = some [("role", "person"), ("value", "x"), ("from", "gpt")] ∧
    pyDictGet [("role", "person"), ("value", "x"), ("from", "gpt")] "from" ≠ some "human" ∧
    validateTurn 0 [("role", "User"), ("value", "x")]
      = some [("role", "User"), ("value", "x"), ("from", "gpt")] := by decide

/-- C5 (amended): with no `from`/`role`/`speaker` key the role defaults by
position parity; with a `from` key the values assistant/ai/bot/claude map
to gpt and user/human/person map to human case-insensitively, the
canonical values are kept, and any other value falls back to the
positional default; but through a `role` or `speaker` alias (with no
`from` key) the value is compared case-sensitively against `user` and
`human` only: those map to human and every other value maps to gpt. -/
theorem C5_role_resolution_amended (i : Nat) (turn t' : PyDict) :
    (validateTurn i turn = some t' →
      pyDictContains turn "from" = false → pyDictContains turn "role" = false →
      pyDictContains turn "speaker" = false →
      pyDictGet t' "from" = some (parityRole i)) ∧
    (∀ v, validateTurn i turn = some t' → pyDictGet turn "from" = some v →
      pyDictGet t' "from" = some
        (if gptAliases.contains (pyLowerS v) then "gpt"
         else if humanAliases.contains (pyLowerS v) then "human"
         else if v = "human" ∨ v = "gpt" then v
         else parityRole i)) ∧
    (∀ v, validateTurn i turn = some t' → pyDictContains turn "from" = false →
      pyDictGet turn "role" = some v →
      pyDictGet t' "from" = some (roleFromAlias v)) ∧
    (∀ v, validateTurn i turn = some t' → pyDictContains turn "from" = false →
      pyDictContains turn "role" = false → pyDictGet turn "speaker" = some v →
      pyDictGet t' "from" = some (roleFromAlias v)) := by
  refine ⟨fun h hf hr hs => ?_, fun v h hv => ?_, fun v h hf hv => ?_, fun v h hf hr hv => ?_⟩
  · obtain ⟨t2, hval, rfl⟩ := validateTurn_some_elim i turn t' h
    rw [resolveFromStage_parity i turn hf hr hs] at hval
    obtain ⟨hfrom2, -⟩ := resolveValueStage_from _ _ hval
    have hget1 := pyDictGet_set_self turn "from" (parityRole i)
    have := normalizeFromStage_get_known i t2 (parityRole i) (hfrom2.trans hget1)
    rwa [normalizedFromValue_canonical i _ (parityRole_cases i)] at this
  · obtain ⟨t2, hval, rfl⟩ := validateTurn_some_elim i turn t' h
    have hc : pyDictContains turn "from" = true := by
      rw [pyDictContains_eq_isSome, hv]
      rfl
    rw [resolveFromStage_has_from i turn hc] at hval
    obtain ⟨hfrom2, -⟩ := resolveValueStage_from _ _ hval
    exact normalizeFromStage_get_known i t2 v (hfrom2.trans hv)
  · obtain ⟨t2, hval, rfl⟩ := validateTurn_some_elim i turn t' h
    have hr : pyDictContains turn "role" = true := by
      rw [pyDictContains_eq_isSome, hv]
      rfl
    rw [resolveFromStage_role i turn hf hr] at hval
    obtain ⟨hfrom2, -⟩ := resolveValueStage_from _ _ hval
    have hget1 := pyDictGet_set_self turn "from"
      (roleFromAlias ((pyDictGet turn "role").getD ""))
    have := normalizeFromStage_get_known i t2 _ (hfrom2.trans hget1)
    rw [normalizedFromValue_canonical i _ (roleFromAlias_cases _)] at this
    rwa [hv] at this
  · obtain ⟨t2, hval, rfl⟩ := validateTurn_some_elim i turn t' h
    have hs : pyDictContains turn "speaker" = true := by
      rw [pyDictContains_eq_isSome, hv]
      rfl
    rw [resolveFromStage_speaker i turn hf hr hs] at hval
    obtain ⟨hfrom2, -⟩ := resolveValueStage_from _ _ hval
    have hget1 := pyDictGet_set_self turn "from"
      (roleFromAlias ((pyDictGet turn "speaker").getD ""))
    have := normalizeFromStage_get_known i t2 _ (hfrom2.trans hget1)
    rw [normalizedFromValue_canonical i _ (roleFromAlias_cases _)] at this
    rwa [hv] at this

/-- C5 witness: a turn with no role-equivalent key at an odd position
resolves to the parity default. -/
theorem C5_witness :
    pyDictGet [("value", "x"), ("from", "gpt")] "from" = some (parityRole 1) :=
  (C5_role_resolution_amended 1 [("value", "x")] [("value", "x"), ("from", "gpt")]).1
    (by decide) (by decide) (by decide) (by decide)

/-! ## C7: JSONL round trip

`save_conversations_to_jsonl` (lines 305-323) writes `json.dumps(conv)`
plus a newline per conversation; `load_conversations_from_jsonl`
(lines 351-369) iterates the lines of the file and applies
`json.loads(line.strip())`.  File I/O is modelled by its content: `save`
returns the written character stream, `load` consumes one.  `json.dumps`
is embedded with CPython's defaults (`ensure_ascii=True`, separators
`", "` and `": "`, insertion order `from` before `value`); `json.loads`
is modelled on the sublanguage that this `dumps` emits, raising (`none`)
on malformed input or trailing data. -/

/-- Lowercase hex digit of `n % 16`, as used by the `\uXXXX` escapes:
codepoint 48 + digit for `0`-`9`, 87 + digit for `a`-`f`. -/
def hexDigit (n : Nat) : Char :=
  if n % 16 < 10 then Char.ofNat (48 + n % 16) else Char.ofNat (87 + n % 16)

/-- Four-digit lowercase hex rendering of `n < 0x10000`. -/
def hex4 (n : Nat) : List Char :=
  [hexDigit (n / 4096), hexDigit (n / 256), hexDigit (n / 16), hexDigit n]

/-- JSON escaping of one character by `json.dumps` with `ensure_ascii`:
quote and backslash escaped, the five short control escapes, `\u00XX` for
other control characters, printable ASCII verbatim, `\uXXXX` for other
characters of the basic plane and a surrogate pair beyond it. -/
def escapeChar (c : Char) : List Char :=
  if c = quotChar then [backslashChar, quotChar]
  else if c = backslashChar then [backslashChar, backslashChar]
  else if c = Char.ofNat 8 then [backslashChar, 'b']
  else if c = '\t' then [backslashChar, 't']
  else if c = '\n' then [backslashChar, 'n']
  else if c = Char.ofNat 12 then [backslashChar, 'f']
  else if c = '\r' then [backslashChar, 'r']
  else if c.toNat < 0x20 then backslashChar :: 'u' :: hex4 c.toNat
  else if c.toNat < 0x7F then [c]
  else if c.toNat < 0x10000 then backslashChar :: 'u' :: hex4 c.toNat
  else
    (backslashChar :: 'u' :: hex4 (0xD800 + (c.toNat - 0x10000) / 0x400))
    ++ backslashChar :: 'u' :: hex4 (0xDC00 + (c.toNat - 0x10000) % 0x400)

/-- JSON string literal for `s`. -/
def encodeJSONString (s : String) : List Char :=
  quotChar :: (s.data.flatMap escapeChar ++ [quotChar])

/-- The left-brace character. -/
def lbraceChar : Char := Char.ofNat 123

/-- The right-brace character. -/
def rbraceChar : Char := Char.ofNat 125

/-- The characters of a dumped turn before its `from` string. -/
def keyFromChars : List Char :=
  [lbraceChar, quotChar, 'f', 'r', 'o', 'm', quotChar, ':', ' ']

/-- The characters of a dumped turn between its two strings. -/
def sepValueChars : List Char :=
  [',', ' ', quotChar, 'v', 'a', 'l', 'u', 'e', quotChar, ':', ' ']

/-- `json.dumps` of one turn dict. -/
def dumpsTurn (t : Turn) : List Char :=
  keyFromChars ++ encodeJSONString t.from_
    ++ sepValueChars ++ encodeJSONString t.value ++ [rbraceChar]

/-- Python `", ".join` on already-rendered items. -/
def joinCommaSpace : List (List Char) → List Char
  | [] => []
  | x :: xs => x ++ xs.flatMap (fun y => ',' :: ' ' :: y)

/-- `json.dumps` of one conversation (a JSON array of turn dicts). -/
def dumpsConv (c : Conv) : List Char :=
  '[' :: (joinCommaSpace (c.map dumpsTurn) ++ [']'])

/-- Embedding of `save_conversations_to_jsonl`: the content written to the
file — each conversation dumped on its own newline-terminated line. -/
def save_conversations_to_jsonl (conversations : List Conv) : List Char :=
  conversations.flatMap (fun c => dumpsConv c ++ ['\n'])

/-- Value of one hex digit, either case. -/
def hexVal (c : Char) : Option Nat :=
  if '0' ≤ c ∧ c ≤ '9' then some (c.toNat - '0'.toNat)
  else if 'a' ≤ c ∧ c ≤ 'f' then some (c.toNat - 'a'.toNat + 10)
  else if 'A' ≤ c ∧ c ≤ 'F' then some (c.toNat - 'A'.toNat + 10)
  else none

/-- Decoding of a single-character JSON escape. -/
def escDecode (e : Char) : Option Char :=
  if e = quotChar then some quotChar
  else if e = backslashChar then some backslashChar
  else if e = '/' then some '/'
  else if e = 'b' then some (Char.ofNat 8)
  else if e = 'f' then some (Char.ofNat 12)
  else if e = 'n' then some '\n'
  else if e = 'r' then some '\r'
  else if e = 't' then some '\t'
  else none

/-- Read four hex digits and return their value with the rest of the
input. -/
def readHex4 : List Char → Option (Nat × List Char)
  | h1 :: h2 :: h3 :: h4 :: rest =>
    match hexVal h1, hexVal h2, hexVal h3, hexVal h4 with
    | some d1, some d2, some d3, some d4 =>
      some (((d1 * 16 + d2) * 16 + d3) * 16 + d4, rest)
    | _, _, _, _ => none
  | _ => none

theorem readHex4_length (l : List Char) (n : Nat) (r : List Char)
    (h : readHex4 l = some (n, r)) : r.length < l.length := by
  match l with
  | [] => simp [readHex4] at h
  | [a] => simp [readHex4] at h
  | [a, b] => simp [readHex4] at h
  | [a, b, c] => simp [readHex4] at h
  | a :: b :: c :: d :: rest =>
    unfold readHex4 at h
    cases ha : hexVal a <;> cases hb : hexVal b <;> cases hc : hexVal c <;> cases hd : hexVal d <;>
      (simp_all; try omega)

/-- Worker for the parser of a JSON string literal body, structurally
recursive on a fuel bound; every recursion step consumes at least one
input character, so the fuel chosen by `parseStrBody` never runs out.
After the opening quote, it returns the decoded characters and the input
following the closing quote.  `\uXXXX` escapes are decoded with
surrogate-pair recombination; lone surrogates are rejected (a `Char`
cannot hold them). -/
def parseStrBodyF : Nat → List Char → Option (List Char × List Char)
  | 0, _ => none
  | _ + 1, [] => none
  | fuel + 1, c :: rest =>
    if c = quotChar then some ([], rest)
    else if c = backslashChar then
      match rest with
      | [] => none
      | e :: rest2 =>
        if e = 'u' then
          match readHex4 rest2 with
          | none => none
          | some (n, rest3) =>
            if 0xD800 ≤ n ∧ n < 0xDC00 then
              match rest3 with
              | b2 :: u2 :: rest4 =>
                if b2 = backslashChar ∧ u2 = 'u' then
                  match readHex4 rest4 with
                  | none => none
                  | some (m, rest5) =>
                    if 0xDC00 ≤ m ∧ m < 0xE000 then
                      (parseStrBodyF fuel rest5).map (fun p =>
                        (Char.ofNat (0x10000 + (n - 0xD800) * 0x400 + (m - 0xDC00)) :: p.1, p.2))
                    else none
                else none
              | _ => none
            else if 0xDC00 ≤ n ∧ n < 0xE000 then none
            else (parseStrBodyF fuel rest3).map (fun p => (Char.ofNat n :: p.1, p.2))
        else
          match escDecode e with
          | none => none
          | some d => (parseStrBodyF fuel rest2).map (fun p => (d :: p.1, p.2))
    else (parseStrBodyF fuel rest).map (fun p => (c :: p.1, p.2))

/-- Parser for the body of a JSON string literal. -/
def parseStrBody (l : List Char) : Option (List Char × List Char) :=
  parseStrBodyF l.length l

/-- Parser for a JSON string literal. -/
def parseJSONString (l : List Char) : Option (String × List Char) :=
  match l with
  | [] => none
  | c :: rest =>
    if c = quotChar then (parseStrBody rest).map (fun p => (⟨p.1⟩, p.2))
    else none

/-- Consume an expected literal character sequence. -/
def expectChars (pat l : List Char) : Option (List Char) :=
  if pyStartsWith l pat then some (l.drop pat.length) else none

/-- Parser for one turn dict as emitted by `dumpsTurn`. -/
def parseTurn (l : List Char) : Option (Turn × List Char) := do
  let r1 ← expectChars keyFromChars l
  let (f, r2) ← parseJSONString r1
  let r3 ← expectChars sepValueChars r2
  let (v, r4) ← parseJSONString r3
  let r5 ← expectChars [rbraceChar] r4
  some (⟨f, v⟩, r5)

/-- Parser for the turns after the first one, consuming `", "` separators
until the closing bracket.  Every iteration consumes at least one
character, so the fuel passed by `parseConv` never runs out. -/
def parseTurnsRest : Nat → List Char → Option (List Turn × List Char)
  | 0, _ => none
  | fuel + 1, l =>
    match l with
    | [] => none
    | c :: rest =>
      if c = ']' then some ([], rest)
      else if c = ',' then
        match rest with
        | [] => none
        | c2 :: rest2 =>
          if c2 = ' ' then do
            let (t, r) ← parseTurn rest2
            let (ts, r2) ← parseTurnsRest fuel r
            some (t :: ts, r2)
          else none
      else none

/-- Parser for a JSON array of turn dicts. -/
def parseConv (l : List Char) : Option (Conv × List Char) :=
  match l with
  | [] => none
  | c :: rest =>
    if c = '[' then
      match rest with
      | [] => none
      | c2 :: _ =>
        if c2 = ']' then some ([], rest.tail)
        else do
          let (t, r) ← parseTurn rest
          let (ts, r2) ← parseTurnsRest (r.length + 1) r
          some (t :: ts, r2)
    else none

/-- Model of `json.loads` on the sublanguage emitted by `dumpsConv`:
parse one conversation and reject trailing data. -/
def jsonLoadsConv (l : List Char) : Option Conv :=
  match parseConv l with
  | some (c, []) => some c
  | _ => none

/-- Python `for line in f`: split the file content after each newline;
a final fragment without a newline is its own line, and a trailing
newline does not create an empty line. -/
def pyFileLines : List Char → List (List Char)
  | [] => []
  | c :: cs =>
    if c = '\n' then ['\n'] :: pyFileLines cs
    else
      match pyFileLines cs with
      | [] => [[c]]
      | l :: ls => (c :: l) :: ls

/-- Embedding of `load_conversations_from_jsonl`: parse every stripped
line; a `json.loads` failure on any line raises. -/
def load_conversations_from_jsonl (file : List Char) : Option (List Conv) :=
  (pyFileLines file).mapM (fun line => jsonLoadsConv (pyStripL line))

/-! ### Hex digit lemmas -/

theorem hexVal_hexDigit (n : Nat) : hexVal (hexDigit n) = some (n % 16) := by
  unfold hexDigit
  have h : n % 16 < 16 := Nat.mod_lt _ (by omega)
  revert h
  generalize n % 16 = m
  intro h
  interval_cases m <;> decide

theorem hexDigit_ne_newline (n : Nat) : hexDigit n ≠ '\n' := by
  unfold hexDigit
  have h : n % 16 < 16 := Nat.mod_lt _ (by omega)
  revert h
  generalize n % 16 = m
  intro h
  interval_cases m <;> decide

theorem hex4_reconstruct (n : Nat) (hn : n < 0x10000) :
    ((n / 4096 % 16 * 16 + n / 256 % 16) * 16 + n / 16 % 16) * 16 + n % 16 = n := by
  omega

theorem newline_not_mem_hex4 (n : Nat) : '\n' ∉ hex4 n := by
  unfold hex4
  intro hmem
  simp only [List.mem_cons, List.not_mem_nil, or_false] at hmem
  rcases hmem with h | h | h | h <;> exact hexDigit_ne_newline _ h.symm

set_option maxHeartbeats 1000000 in
theorem newline_not_mem_escapeChar (c : Char) : '\n' ∉ escapeChar c := by
  unfold escapeChar
  split_ifs with h1 h2 h3 h4 h5 h6 h7 h8 h9 h10 <;> intro hmem <;>
    simp only [List.mem_cons, List.mem_singleton, List.mem_append, List.not_mem_nil, or_false,
      List.cons_append, List.nil_append, List.append_assoc] at hmem
  all_goals try exact absurd hmem (by decide)
  · rcases hmem with h | h | h
    · exact absurd h (by decide)
    · exact absurd h (by decide)
    · exact newline_not_mem_hex4 _ h
  · rw [← hmem] at h8
    exact h8 (by decide)
  · rcases hmem with h | h | h
    · exact absurd h (by decide)
    · exact absurd h (by decide)
    · exact newline_not_mem_hex4 _ h
  · rcases hmem with h | h | h | h | h | h
    · exact absurd h (by decide)
    · exact absurd h (by decide)
    · exact newline_not_mem_hex4 _ h
    · exact absurd h (by decide)
    · exact absurd h (by decide)
    · exact newline_not_mem_hex4 _ h
theorem readHex4_hex4 (n : Nat) (hn : n < 0x10000) (rest : List Char) :
    readHex4 (hex4 n ++ rest) = some (n, rest) := by
  simp only [hex4, List.cons_append, List.nil_append, readHex4, hexVal_hexDigit]
  have h1 : n / 4096 % 16 = n / 4096 := Nat.mod_eq_of_lt (by omega)
  rw [h1]
  congr 1
  rw [Prod.mk.injEq]
  exact ⟨by omega, rfl⟩


theorem parseStrBodyF_quot (f : Nat) (rest : List Char) :
    parseStrBodyF (f + 1) (quotChar :: rest) = some ([], rest) := by
  simp only [parseStrBodyF, if_true]

theorem parseStrBodyF_lit (f : Nat) (c : Char) (h1 : c ≠ quotChar) (h2 : c ≠ backslashChar)
    (rest : List Char) :
    parseStrBodyF (f + 1) (c :: rest)
      = (parseStrBodyF f rest).map (fun p => (c :: p.1, p.2)) := by
  simp only [parseStrBodyF]
  rw [if_neg h1, if_neg h2]

theorem parseStrBodyF_esc_simple (f : Nat) (e d : Char) (hd : escDecode e = some d)
    (he : e ≠ 'u') (rest : List Char) :
    parseStrBodyF (f + 1) (backslashChar :: e :: rest)
      = (parseStrBodyF f rest).map (fun p => (d :: p.1, p.2)) := by
  simp only [parseStrBodyF, if_true]
  rw [if_neg (show ¬(backslashChar = quotChar) by decide)]
  rw [if_neg he, hd]

theorem parseStrBodyF_u4 (f : Nat) (n : Nat) (hn : n < 0x10000)
    (hns : n < 0xD800 ∨ 0xE000 ≤ n) (rest : List Char) :
    parseStrBodyF (f + 1) (backslashChar :: 'u' :: (hex4 n ++ rest))
      = (parseStrBodyF f rest).map (fun p => (Char.ofNat n :: p.1, p.2)) := by
  simp only [parseStrBodyF, if_true]
  rw [if_neg (show ¬(backslashChar = quotChar) by decide)]
  simp only [readHex4_hex4 n hn rest]
  rw [if_neg (by omega), if_neg (by omega)]

theorem parseStrBodyF_uPair (f : Nat) (v : Nat) (hv : v < 0x100000) (rest : List Char) :
    parseStrBodyF (f + 1)
        ((backslashChar :: 'u' :: hex4 (0xD800 + v / 0x400))
          ++ ((backslashChar :: 'u' :: hex4 (0xDC00 + v % 0x400)) ++ rest))
      = (parseStrBodyF f rest).map (fun p => (Char.ofNat (0x10000 + v) :: p.1, p.2)) := by
  have hhi : 0xD800 + v / 0x400 < 0x10000 := by omega
  have hlo : 0xDC00 + v % 0x400 < 0x10000 := by
    have := Nat.mod_lt v (show 0 < 0x400 by omega)
    omega
  simp only [List.cons_append, List.append_assoc, parseStrBodyF, if_true, List.append_eq]
  rw [if_neg (show ¬(backslashChar = quotChar) by decide)]
  simp only [readHex4_hex4 _ hhi]
  rw [if_pos (by constructor <;> omega)]
  rw [if_pos (show True ∧ True from ⟨trivial, trivial⟩)]
  simp only [readHex4_hex4 _ hlo]
  rw [if_pos (show 0xDC00 ≤ 0xDC00 + v % 0x400 ∧ 0xDC00 + v % 0x400 < 0xE000 by
    have := Nat.mod_lt v (show 0 < 0x400 by omega)
    exact ⟨by omega, by omega⟩)]
  have hcode : 0x10000 + (0xD800 + v / 0x400 - 0xD800) * 0x400 + (0xDC00 + v % 0x400 - 0xDC00)
      = 0x10000 + v := by omega
  rw [hcode]

set_option maxHeartbeats 1600000 in
theorem parseStrBodyF_escape (f : Nat) (c : Char) (tail : List Char) :
    parseStrBodyF (f + 1) (escapeChar c ++ tail)
      = (parseStrBodyF f tail).map (fun p => (c :: p.1, p.2)) := by
  have hv : c.toNat < 0xd800 ∨ (0xdfff < c.toNat ∧ c.toNat < 0x110000) := c.valid
  unfold escapeChar
  split_ifs with h1 h2 h3 h4 h5 h6 h7 h8 h9 h10
  · rw [h1]
    exact parseStrBodyF_esc_simple f quotChar quotChar (by decide) (by decide) tail
  · rw [h2]
    exact parseStrBodyF_esc_simple f backslashChar backslashChar (by decide) (by decide) tail
  · rw [h3]
    exact parseStrBodyF_esc_simple f 'b' (Char.ofNat 8) (by decide) (by decide) tail
  · rw [h4]
    exact parseStrBodyF_esc_simple f 't' '\t' (by decide) (by decide) tail
  · rw [h5]
    exact parseStrBodyF_esc_simple f 'n' '\n' (by decide) (by decide) tail
  · rw [h6]
    exact parseStrBodyF_esc_simple f 'f' (Char.ofNat 12) (by decide) (by decide) tail
  · rw [h7]
    exact parseStrBodyF_esc_simple f 'r' '\r' (by decide) (by decide) tail
  · have := parseStrBodyF_u4 f c.toNat (by omega) (Or.inl (by omega)) tail
    rw [Char.ofNat_toNat] at this
    exact this
  · exact parseStrBodyF_lit f c h1 h2 tail
  · have := parseStrBodyF_u4 f c.toNat (by omega) (by omega) tail
    rw [Char.ofNat_toNat] at this
    exact this
  · have := parseStrBodyF_uPair f (c.toNat - 0x10000) (by omega) tail
    rw [show 0x10000 + (c.toNat - 0x10000) = c.toNat by omega, Char.ofNat_toNat] at this
    simpa [List.append_assoc] using this

theorem parseStrBodyF_flatMap (cs : List Char) : ∀ (fuel : Nat) (rest : List Char),
    cs.length < fuel →
    parseStrBodyF fuel (cs.flatMap escapeChar ++ quotChar :: rest) = some (cs, rest) := by
  induction cs with
  | nil =>
    intro fuel rest h
    obtain ⟨f, rfl⟩ : ∃ f, fuel = f + 1 := ⟨fuel - 1, by omega⟩
    simpa using parseStrBodyF_quot f rest
  | cons c cs ih =>
    intro fuel rest h
    obtain ⟨f, rfl⟩ : ∃ f, fuel = f + 1 := ⟨fuel - 1, by omega⟩
    simp only [List.flatMap_cons, List.append_assoc]
    rw [parseStrBodyF_escape f c _, ih f rest (by simp at h; omega)]
    rfl

set_option maxHeartbeats 1600000 in
theorem escapeChar_length_pos (c : Char) : 1 ≤ (escapeChar c).length := by
  unfold escapeChar
  split_ifs <;> simp [hex4]

theorem flatMap_escape_length (cs : List Char) :
    cs.length ≤ (cs.flatMap escapeChar).length := by
  induction cs with
  | nil => simp
  | cons c cs ih =>
    simp only [List.flatMap_cons, List.length_append, List.length_cons]
    have := escapeChar_length_pos c
    omega

theorem parseStrBody_flatMap (cs : List Char) (rest : List Char) :
    parseStrBody (cs.flatMap escapeChar ++ quotChar :: rest) = some (cs, rest) := by
  unfold parseStrBody
  apply parseStrBodyF_flatMap
  have := flatMap_escape_length cs
  simp only [List.length_append, List.length_cons]
  omega

theorem parseJSONString_encode (s : String) (rest : List Char) :
    parseJSONString (encodeJSONString s ++ rest) = some (s, rest) := by
  obtain ⟨data⟩ := s
  unfold encodeJSONString
  simp only [List.cons_append, List.append_assoc, List.singleton_append, List.nil_append]
  simp only [parseJSONString, if_true]
  rw [parseStrBody_flatMap]
  rfl

theorem pyStartsWith_append (pat rest : List Char) :
    pyStartsWith (pat ++ rest) pat = true := by
  induction pat with
  | nil => simp [pyStartsWith]
  | cons p ps ih => simp [pyStartsWith, ih]

theorem expectChars_append (pat rest : List Char) :
    expectChars pat (pat ++ rest) = some rest := by
  unfold expectChars
  rw [if_pos (pyStartsWith_append pat rest), List.drop_left]

theorem expectChars_cons_single (a : Char) (rest : List Char) :
    expectChars [a] (a :: rest) = some rest :=
  expectChars_append [a] rest

theorem parseTurn_dumps (t : Turn) (rest : List Char) :
    parseTurn (dumpsTurn t ++ rest) = some (t, rest) := by
  obtain ⟨f, v⟩ := t
  unfold dumpsTurn parseTurn
  simp only [List.append_assoc]
  simp [expectChars_append, parseJSONString_encode, expectChars_cons_single]

theorem turnsTail_length (ts : List Turn) :
    ts.length ≤ ((ts.map dumpsTurn).flatMap (fun y => ',' :: ' ' :: y)).length := by
  induction ts with
  | nil => simp
  | cons t ts ih =>
    simp only [List.map_cons, List.flatMap_cons, List.length_append, List.length_cons]
    omega

theorem parseTurnsRest_tail (ts : List Turn) : ∀ (fuel : Nat) (rest : List Char),
    ts.length < fuel →
    parseTurnsRest fuel ((ts.map dumpsTurn).flatMap (fun y => ',' :: ' ' :: y) ++ ']' :: rest)
      = some (ts, rest) := by
  induction ts with
  | nil =>
    intro fuel rest h
    obtain ⟨f, rfl⟩ : ∃ f, fuel = f + 1 := ⟨fuel - 1, by omega⟩
    simp [parseTurnsRest]
  | cons t ts ih =>
    intro fuel rest h
    obtain ⟨f, rfl⟩ : ∃ f, fuel = f + 1 := ⟨fuel - 1, by omega⟩
    simp only [List.map_cons, List.flatMap_cons, List.cons_append, List.append_assoc]
    simp only [parseTurnsRest, if_neg (show ¬((',' : Char) = ']') by decide), if_true]
    simp [parseTurn_dumps, ih f rest (by simp at h; omega)]


theorem parseConv_dumps (c : Conv) (rest : List Char) :
    parseConv (dumpsConv c ++ rest) = some (c, rest) := by
  cases c with
  | nil =>
    simp [dumpsConv, joinCommaSpace, parseConv]
  | cons t ts =>
    unfold dumpsConv joinCommaSpace
    simp only [List.map_cons, List.cons_append, List.append_assoc, List.singleton_append,
      List.nil_append]
    simp only [parseConv, if_true]
    have hdt : dumpsTurn t ++ ((ts.map dumpsTurn).flatMap (fun y => ',' :: ' ' :: y) ++ ']' :: rest)
        = lbraceChar :: (([quotChar, 'f', 'r', 'o', 'm', quotChar, ':', ' ']
            ++ encodeJSONString t.from_ ++ (sepValueChars ++ (encodeJSONString t.value
            ++ ([rbraceChar] ++ ((ts.map dumpsTurn).flatMap (fun y => ',' :: ' ' :: y)
            ++ ']' :: rest))))) : List Char) := by
      simp [dumpsTurn, keyFromChars, List.append_assoc]
    rw [hdt]
    split
    next heq => cases heq
    next c2 tail heq =>
      injection heq with h1 h2
      subst h1
      rw [if_neg (show ¬(lbraceChar = ']') by decide)]
      rw [← hdt]
      rw [parseTurn_dumps]
      simp only [Option.pure_def, Option.bind_eq_bind, Option.some_bind]
      rw [parseTurnsRest_tail ts _ rest (by
        have hlen := turnsTail_length ts
        simp only [List.length_append, List.length_cons]
        omega)]
      rfl

theorem jsonLoadsConv_dumps (c : Conv) : jsonLoadsConv (dumpsConv c) = some c := by
  unfold jsonLoadsConv
  have h := parseConv_dumps c []
  rw [List.append_nil] at h
  rw [h]

theorem flatMap_escape_no_newline (l : List Char) : '\n' ∉ l.flatMap escapeChar := by
  intro hm
  obtain ⟨a, -, ha⟩ := List.mem_flatMap.mp hm
  exact newline_not_mem_escapeChar a ha

theorem dumpsTurn_no_newline (t : Turn) : '\n' ∉ dumpsTurn t := by
  unfold dumpsTurn keyFromChars sepValueChars encodeJSONString
  intro hmem
  rcases List.mem_append.mp hmem with h1 | h1
  · rcases List.mem_append.mp h1 with h2 | h2
    · rcases List.mem_append.mp h2 with h3 | h3
      · rcases List.mem_append.mp h3 with h4 | h4
        · exact absurd h4 (by decide)
        · rcases List.mem_cons.mp h4 with h5 | h5
          · exact absurd h5 (by decide)
          · rcases List.mem_append.mp h5 with h6 | h6
            · exact flatMap_escape_no_newline _ h6
            · exact absurd (List.mem_singleton.mp h6) (by decide)
      · exact absurd h3 (by decide)
    · rcases List.mem_cons.mp h2 with h5 | h5
      · exact absurd h5 (by decide)
      · rcases List.mem_append.mp h5 with h6 | h6
        · exact flatMap_escape_no_newline _ h6
        · exact absurd (List.mem_singleton.mp h6) (by decide)
  · exact absurd (List.mem_singleton.mp h1) (by decide)

theorem dumpsConv_no_newline (c : Conv) : '\n' ∉ dumpsConv c := by
  intro hmem
  unfold dumpsConv at hmem
  rcases List.mem_cons.mp hmem with h | h
  · exact absurd h (by decide)
  · rcases List.mem_append.mp h with h | h
    · induction c with
      | nil => simp [joinCommaSpace] at h
      | cons t ts ih =>
        simp only [joinCommaSpace, List.map_cons, List.mem_append] at h
        rcases h with h | h
        · exact dumpsTurn_no_newline t h
        · obtain ⟨y, hy, hmemy⟩ := List.mem_flatMap.mp h
          obtain ⟨t2, -, rfl⟩ := List.mem_map.mp hy
          rcases List.mem_cons.mp hmemy with h2 | h2
          · exact absurd h2 (by decide)
          · rcases List.mem_cons.mp h2 with h3 | h3
            · exact absurd h3 (by decide)
            · exact dumpsTurn_no_newline t2 h3
    · exact absurd (List.mem_singleton.mp h) (by decide)

theorem pyFileLines_line (xs : List Char) (rest : List Char) (h : '\n' ∉ xs) :
    pyFileLines (xs ++ '\n' :: rest) = (xs ++ ['\n']) :: pyFileLines rest := by
  induction xs with
  | nil => simp [pyFileLines]
  | cons a xs ih =>
    have ha : ¬(a = '\n') := fun heq => h (heq ▸ List.mem_cons_self a xs)
    simp only [List.cons_append, pyFileLines, if_neg ha, List.append_eq]
    rw [ih (fun hm => h (List.mem_cons_of_mem a hm))]

theorem pyStripL_line (c : Conv) : pyStripL (dumpsConv c ++ ['\n']) = dumpsConv c := by
  unfold pyStripL dumpsConv
  simp only [List.cons_append]
  rw [List.dropWhile_cons_of_neg (by decide)]
  rw [show ('[' :: ((joinCommaSpace (List.map dumpsTurn c) ++ [']']) ++ ['\n']))
      = ('[' :: (joinCommaSpace (List.map dumpsTurn c) ++ [']'])) ++ ['\n'] by simp]
  rw [List.reverse_append]
  simp only [List.reverse_cons, List.reverse_nil, List.nil_append, List.singleton_append,
    List.reverse_append, List.append_assoc]
  rw [List.dropWhile_cons_of_pos (by decide)]
  simp only [List.cons_append]
  rw [List.dropWhile_cons_of_neg (by decide)]
  simp [List.reverse_append]

theorem pyFileLines_save (conversations : List Conv) :
    pyFileLines (save_conversations_to_jsonl conversations)
      = conversations.map (fun c => dumpsConv c ++ ['\n']) := by
  induction conversations with
  | nil => rfl
  | cons c cs ih =>
    unfold save_conversations_to_jsonl at ih ⊢
    simp only [List.flatMap_cons, List.map_cons, List.append_assoc, List.singleton_append]
    rw [pyFileLines_line _ _ (dumpsConv_no_newline c), ih]

/-- C7: saving a batch of conversations to the line-delimited format and
loading the file back yields the same batch: same conversations, same
order, every turn field identical. -/
theorem C7_jsonl_round_trip (conversations : List Conv) :
    load_conversations_from_jsonl (save_conversations_to_jsonl conversations)
      = some conversations := by
  unfold load_conversations_from_jsonl
  rw [pyFileLines_save]
  induction conversations with
  | nil => rfl
  | cons c cs ih =>
    simp only [List.map_cons, List.mapM_cons, pyStripL_line, jsonLoadsConv_dumps]
    simp only [Option.pure_def, Option.bind_eq_bind, Option.some_bind] at ih ⊢
    rw [ih]
    rfl
end AgentChef
